import Mathlib

/-!
Verification of the entity-change multiplexer ("all-watcher") of this
repository against its specification.

The repository ships the test suite for the multiplexer
(`src/container/lxc/lxcutils/utils.go`, package `state`), while the
implementation under test (`allInfo`, `allWatcher`, `xStateWatcher`) is not
part of the source tree.  Following the spec, the missing operations are
modelled here as Lean definitions; wherever the in-repository tests pin the
behaviour down more precisely than the spec's prose (for example the exact
`latestRevno` bookkeeping of `markRemoved` on an entry with zero reference
count, taken from `allInfoChangeMethodTests`), the tests are followed and the
doc comment of the definition says so.
-/

set_option maxHeartbeats 1000000

namespace JujuState

/-- Entity key: `(collection, id)`, as built by `entityIdForInfo` in the
test file (`entityId{collection: info.EntityKind(), id: info.EntityId()}`). -/
structure entityId where
  collection : String
  id : String
deriving DecidableEq, Repr

/-- Entity payloads: the `params.EntityInfo` variants exercised by the tests
(`MachineInfo`, `ServiceInfo`, `UnitInfo`, `RelationInfo`). -/
inductive EntityInfo where
  | MachineInfo (id : String) (instanceId : String)
  | ServiceInfo (name : String) (exposed : Bool)
  | UnitInfo (name : String) (service : String)
  | RelationInfo (key : String)
deriving DecidableEq, Repr

/-- The `EntityKind()` projection of an entity value. -/
def EntityInfo.entityKind : EntityInfo → String
  | .MachineInfo _ _ => "machine"
  | .ServiceInfo _ _ => "service"
  | .UnitInfo _ _ => "unit"
  | .RelationInfo _ => "relation"

/-- The `EntityId()` projection of an entity value. -/
def EntityInfo.entityIdStr : EntityInfo → String
  | .MachineInfo i _ => i
  | .ServiceInfo n _ => n
  | .UnitInfo n _ => n
  | .RelationInfo k => k

/-- `entityIdForInfo` from the test file. -/
def entityIdForInfo (info : EntityInfo) : entityId :=
  ⟨info.entityKind, info.entityIdStr⟩

/-- The snapshot's unit of storage (`entityEntry` in the tests): revision
stamps, tombstone flag, per-entity reference count, and the entity value. -/
structure entityEntry where
  creationRevno : Int
  revno : Int
  removed : Bool
  refCount : Int
  info : EntityInfo
deriving DecidableEq, Repr

/-- The snapshot store (`allInfo`): `latestRevno` and the ordered sequence of
entries, least-recently-changed first (the order in which
`assertAllInfoContents` reads the store, `list.Back()` towards `Front()`).
The Go implementation keeps a separate map `entityId → list.Element`; in this
embedding the association list with unique keys plays both roles. -/
structure allInfo where
  latestRevno : Int
  entries : List (entityId × entityEntry)
deriving DecidableEq, Repr

/-- `newAllInfo`: empty snapshot, `latestRevno = 0`. -/
def newAllInfo : allInfo := ⟨0, []⟩

/-- First entry with the given key, if any (the `entities` map lookup). -/
def findEntry : List (entityId × entityEntry) → entityId → Option entityEntry
  | [], _ => none
  | p :: rest, i => if p.1 = i then some p.2 else findEntry rest i

/-- Drop every entry with the given key (removal from sequence and index). -/
def removeKey (l : List (entityId × entityEntry)) (i : entityId) :
    List (entityId × entityEntry) :=
  l.filter fun p => !(decide (p.1 = i))

/-- Replace the entry stored under the given key, keeping its position. -/
def setEntry (l : List (entityId × entityEntry)) (i : entityId)
    (e : entityEntry) : List (entityId × entityEntry) :=
  l.map fun p => if p.1 = i then (i, e) else p

def allInfo.lookup (a : allInfo) (i : entityId) : Option entityEntry :=
  findEntry a.entries i

/-- Modelled from the spec (§4.1 `add`), the implementation being absent from
the source tree: precondition key absent; assigns
`creationRevno = revno = ++latestRevno`, `refCount = 0`, `removed = false`,
appends at the tail. -/
def allInfo.add (a : allInfo) (i : entityId) (info : EntityInfo) : allInfo :=
  let r := a.latestRevno + 1
  ⟨r, a.entries ++ [(i, ⟨r, r, false, 0, info⟩)]⟩

/-- Modelled from the spec (§4.1 `delete`), the implementation being absent
from the source tree: removes the entry without touching `latestRevno`
(test "delete entry" expects `latestRevno = 1` afterwards). -/
def allInfo.delete (a : allInfo) (i : entityId) : allInfo :=
  ⟨a.latestRevno, removeKey a.entries i⟩

/-- Modelled from the spec (§4.1 `update`), the implementation being absent
from the source tree: if the key is absent, behaves as `add`; otherwise
replaces `info`, stamps `revno = ++latestRevno`, clears `removed`, and moves
the entry to the tail, keeping `creationRevno` and `refCount`. -/
def allInfo.update (a : allInfo) (i : entityId) (info : EntityInfo) : allInfo :=
  match a.lookup i with
  | none => a.add i info
  | some e =>
    let r := a.latestRevno + 1
    ⟨r, removeKey a.entries i ++ [(i, ⟨e.creationRevno, r, false, e.refCount, info⟩)]⟩

/-- Modelled from the spec (§4.1 `markRemoved`), the implementation being
absent from the source tree, refined by the in-repository tests
`allInfoChangeMethodTests`: absent key is a no-op; an entry already marked
removed is left untouched ("mark removed on already marked entry"); with
`refCount = 0` the revision counter is still advanced and the entry is
deleted ("mark removed on entry with zero ref count" expects
`latestRevno = 2`); otherwise the entry is stamped `revno = ++latestRevno`,
marked removed, and moved to the tail. -/
def allInfo.markRemoved (a : allInfo) (i : entityId) : allInfo :=
  match a.lookup i with
  | none => a
  | some e =>
    if e.removed then a
    else
      let r := a.latestRevno + 1
      if e.refCount = 0 then ⟨r, removeKey a.entries i⟩
      else ⟨r, removeKey a.entries i ++ [(i, ⟨e.creationRevno, r, true, e.refCount, e.info⟩)]⟩

/-- Modelled from the spec (§4.1 `decRef`), the implementation being absent
from the source tree: decrements `refCount`; if the count reaches zero and
the entry is marked removed, deletes it; never touches `latestRevno`. -/
def allInfo.decRef (a : allInfo) (i : entityId) : allInfo :=
  match a.lookup i with
  | none => a
  | some e =>
    let rc := e.refCount - 1
    if rc = 0 && e.removed then ⟨a.latestRevno, removeKey a.entries i⟩
    else ⟨a.latestRevno, setEntry a.entries i ⟨e.creationRevno, e.revno, e.removed, rc, e.info⟩⟩

/-- The test helper `allInfoIncRef`: bumps the entry's `refCount` in place. -/
def allInfo.incRef (a : allInfo) (i : entityId) : allInfo :=
  match a.lookup i with
  | none => a
  | some e =>
    ⟨a.latestRevno, setEntry a.entries i ⟨e.creationRevno, e.revno, e.removed, e.refCount + 1, e.info⟩⟩

/-- A change record delivered to clients (`params.Delta`). -/
structure Delta where
  removed : Bool
  entity : EntityInfo
deriving DecidableEq, Repr

/-- Modelled from the spec (§4.1 `changesSince`), the implementation being
absent from the source tree: walk the sequence from the first entry whose
`revno` exceeds the cursor to the tail, emitting `{removed, info}` for each,
except that a removed entry whose `creationRevno` exceeds the cursor is
skipped (a client that never saw the entity is not told of its removal). -/
def allInfo.changesSince (a : allInfo) (c : Int) : List Delta :=
  ((a.entries.dropWhile fun p => decide (p.2.revno ≤ c)).filter fun p =>
      !(p.2.removed && decide (c < p.2.creationRevno))).map
    fun p => Delta.mk p.2.removed p.2.info

/-! ### Snapshot invariants and reachability -/

/-- Entries ordered by strictly increasing `revno` (spec invariant P1). -/
def revLT (p q : entityId × entityEntry) : Prop := p.2.revno < q.2.revno

/-- A well-formed snapshot: the sequence is sorted by strictly increasing
`revno` and every `revno` is bounded by `latestRevno`. -/
def allInfo.wellFormed (a : allInfo) : Prop :=
  a.entries.Pairwise revLT ∧ ∀ p ∈ a.entries, p.2.revno ≤ a.latestRevno

/-- Snapshot states reachable from the empty snapshot by the five mutation
operations; `add` carries its documented precondition (key absent). -/
inductive reachable : allInfo → Prop
  | empty : reachable newAllInfo
  | add {a i info} : reachable a → a.lookup i = none → reachable (a.add i info)
  | update {a i info} : reachable a → reachable (a.update i info)
  | mark {a i} : reachable a → reachable (a.markRemoved i)
  | del {a i} : reachable a → reachable (a.delete i)
  | dec {a i} : reachable a → reachable (a.decRef i)

/-! ### The multiplexer (`allWatcher`) -/

/-- A reply sent on a request's reply channel: the request's identity, the
boolean sent on the channel, and the delta set stored in `req.changes`. -/
structure Reply where
  reqId : Nat
  ok : Bool
  changes : List Delta
deriving DecidableEq, Repr

/-- The multiplexer state: the snapshot, each client's cursor
(`xStateWatcher.revno`), and the waiting table mapping a client to its
pending request stack, most recently enqueued first. -/
structure allWatcherState where
  all : allInfo
  revnos : List (Nat × Int)
  waiting : List (Nat × List Nat)
deriving DecidableEq, Repr

/-- Association-list lookup with a default. -/
def lookupNat {α : Type} : List (Nat × α) → Nat → α → α
  | [], _, d => d
  | p :: rest, k, d => if p.1 = k then p.2 else lookupNat rest k d

/-- Association-list overwrite (insert at the end when the key is new). -/
def setNat {α : Type} : List (Nat × α) → Nat → α → List (Nat × α)
  | [], k, v => [(k, v)]
  | p :: rest, k, v => if p.1 = k then (k, v) :: rest else p :: setNat rest k v

/-- Push a request onto the client's pending stack (the Go code links the new
request in front: `req.next = aw.waiting[req.w]; aw.waiting[req.w] = req`). -/
def pushReq : List (Nat × List Nat) → Nat → Nat → List (Nat × List Nat)
  | [], w, r => [(w, [r])]
  | p :: rest, w, r => if p.1 = w then (w, r :: p.2) :: rest else p :: pushReq rest w r

/-- Per-entry effect of stopping a client with the given cursor: decrement
`refCount` exactly on the entries the client has seen (`creationRevno ≤`
cursor) that are not marked removed. -/
def leaveEntry (cursor : Int) (e : entityEntry) : entityEntry :=
  if decide (e.creationRevno ≤ cursor) && !e.removed then
    ⟨e.creationRevno, e.revno, e.removed, e.refCount - 1, e.info⟩
  else e

/-- Modelled from the spec (§4.3 refcount discipline during stop), the
implementation being absent from the source tree: release the stopping
client's references, following the discipline the in-repository
`TestHandleStop*` tests check (no decrement for unseen or removed entries). -/
def allInfo.leave (a : allInfo) (cursor : Int) : allInfo :=
  ⟨a.latestRevno, a.entries.map fun p => (p.1, leaveEntry cursor p.2)⟩

/-- Modelled from the spec (§4.3 client requests), the implementation being
absent from the source tree: a request with a reply channel (`some reqId`) is
pushed onto the head of the client's pending list; a stop marker (`none`, the
Go nil reply channel) replies `false` to every pending request of that
client, removes the client from the waiting table, and releases its
refcounts via `leave`. -/
def allWatcherState.handle (s : allWatcherState) (w : Nat) (req : Option Nat) :
    allWatcherState × List Reply :=
  match req with
  | some r => (⟨s.all, s.revnos, pushReq s.waiting w r⟩, [])
  | none =>
    (⟨s.all.leave (lookupNat s.revnos w 0), s.revnos,
        s.waiting.filter fun p => !(decide (p.1 = w))⟩,
      (lookupNat s.waiting w []).map fun r => Reply.mk r false [])

/-- Per-entry effect of delivering `changesSince cursor` to a client: a
freshly seen live entry gains a reference; a removed entry whose creation the
client had seen loses one (and disappears when the count reaches zero);
entries at or below the cursor are untouched. -/
def seenStep (cursor : Int) (p : entityId × entityEntry) :
    Option (entityId × entityEntry) :=
  if decide (p.2.revno ≤ cursor) then some p
  else if decide (cursor < p.2.creationRevno) then
    if p.2.removed then some p
    else some (p.1, ⟨p.2.creationRevno, p.2.revno, p.2.removed, p.2.refCount + 1, p.2.info⟩)
  else if p.2.removed then
    if p.2.refCount - 1 = 0 then none
    else some (p.1, ⟨p.2.creationRevno, p.2.revno, p.2.removed, p.2.refCount - 1, p.2.info⟩)
  else some p

/-- Modelled from the spec (§4.2 advancement), the implementation being
absent from the source tree: reconcile refcounts after a delivery that
covered everything newer than `cursor`. -/
def allInfo.seen (a : allInfo) (cursor : Int) : allInfo :=
  ⟨a.latestRevno, a.entries.filterMap (seenStep cursor)⟩

/-- Result of a `respond()` pass: final snapshot, cursors, waiting table,
and the replies sent. -/
structure RespondRes where
  all : allInfo
  revnos : List (Nat × Int)
  waiting : List (Nat × List Nat)
  replies : List Reply
deriving DecidableEq, Repr

/-- Modelled from the spec (§4.3 `respond`), the implementation being absent
from the source tree: for each client with pending requests, compute
`changesSince` of its cursor; an empty delta set leaves the client pending
untouched; otherwise the most recently enqueued request (the top of the
stack) is answered `true` with the delta set, the client's cursor advances to
`latestRevno`, and refcounts are reconciled via `seen`.  The Go loop ranges
over a map; here the waiting table is processed in list order. -/
def respondGo (all : allInfo) (revnos : List (Nat × Int)) :
    List (Nat × List Nat) → RespondRes
  | [] => ⟨all, revnos, [], []⟩
  | (w, stack) :: ws =>
    let cursor := lookupNat revnos w 0
    let changes := all.changesSince cursor
    if changes.isEmpty then
      let res := respondGo all revnos ws
      ⟨res.all, res.revnos, (w, stack) :: res.waiting, res.replies⟩
    else
      match stack with
      | [] => respondGo all revnos ws
      | top :: rest =>
        let res := respondGo (all.seen cursor) (setNat revnos w all.latestRevno) ws
        ⟨res.all, res.revnos,
          if rest.isEmpty then res.waiting else (w, rest) :: res.waiting,
          Reply.mk top true changes :: res.replies⟩

/-- One `respond()` pass over the whole waiting table. -/
def allWatcherState.respond (s : allWatcherState) : allWatcherState × List Reply :=
  let res := respondGo s.all s.revnos s.waiting
  (⟨res.all, res.revnos, res.waiting⟩, res.replies)

/-- All request identities pending in a waiting table. -/
def stacksFlat (ws : List (Nat × List Nat)) : List Nat :=
  (ws.map Prod.snd).flatten

/-! ### The event loop and fatal errors -/

/-- Outcome of a backing fetch: the entity, a distinguishable "not found",
or a fatal error. -/
inductive FetchRes where
  | found (info : EntityInfo)
  | notFound
  | fatal (msg : String)

/-- The backing adapter, reduced to its fetch behaviour. -/
structure Backing where
  fetchResult : entityId → FetchRes

/-- Modelled from the spec (§4.3 backing notifications, §7), the
implementation (`allWatcher.changed`) being absent from the source tree:
fetch the changed key; "not found" marks the entry removed, success updates
it, any other error aborts the loop with that error. -/
def changed (b : Backing) (a : allInfo) (i : entityId) : Except String allInfo :=
  match b.fetchResult i with
  | .notFound => .ok (a.markRemoved i)
  | .fatal e => .error e
  | .found info => .ok (a.update i info)

/-- Modelled from the spec (§4.3, §5), the loop body being absent from the
source tree: process a stream of change notifications, terminating with the
first fatal backing error. -/
def processEvents (b : Backing) : allInfo → List entityId → Except String allInfo
  | a, [] => .ok a
  | a, i :: rest =>
    match changed b a i with
    | .error e => .error e
    | .ok a2 => processEvents b a2 rest

/-- Modelled from the spec (§5 fatal-error propagation), the implementation
being absent from the source tree: a multiplexer whose loop has terminated
holds the latched error; every subsequent `Next()` returns it with zero
deltas and every subsequent `Stop()` returns it. -/
structure MuxDead where
  err : String

def MuxDead.Next (m : MuxDead) : List Delta × String := ([], m.err)

def MuxDead.Stop (m : MuxDead) : String := m.err

/-- The "watcher stopped" error of the client watcher
(`errWatcherStopped`; the message is the one `TestRunStop` matches). -/
def errWatcherStopped : String := "state watcher was stopped"

/-- Modelled from the spec (§4.2 `Next`), the implementation being absent
from the source tree: the stop conditions a blocked `Next()` observes. -/
structure WatcherView where
  stopped : Bool
  muxStopped : Bool

/-- Modelled from the spec (§4.2 `Next`), the implementation being absent
from the source tree: once the watcher or the multiplexer is stopped,
`Next()` returns zero deltas and the "watcher stopped" error; otherwise it
keeps blocking (`none`). -/
def WatcherView.NextOutcome (w : WatcherView) : Option (List Delta × String) :=
  if w.stopped || w.muxStopped then some ([], errWatcherStopped) else none

/-! ### Helper lemmas about the association list -/

lemma findEntry_mem : ∀ {l : List (entityId × entityEntry)} {i : entityId}
    {e : entityEntry}, findEntry l i = some e → (i, e) ∈ l := by
  intro l
  induction l with
  | nil => intro i e h; simp [findEntry] at h
  | cons p rest ih =>
    intro i e h
    by_cases hp : p.1 = i
    · rw [findEntry, if_pos hp] at h
      obtain ⟨rfl⟩ := h
      subst hp
      simp
    · rw [findEntry, if_neg hp] at h
      exact List.mem_cons_of_mem _ (ih h)

lemma mem_removeKey {l : List (entityId × entityEntry)} {i : entityId}
    {p : entityId × entityEntry} (h : p ∈ removeKey l i) : p ∈ l :=
  (List.mem_filter.mp h).1

lemma findEntry_removeKey_self (l : List (entityId × entityEntry)) (i : entityId) :
    findEntry (removeKey l i) i = none := by
  induction l with
  | nil => rfl
  | cons p rest ih =>
    by_cases hp : p.1 = i
    · simpa [removeKey, List.filter_cons, hp] using ih
    · simpa [removeKey, List.filter_cons, hp, findEntry] using ih

lemma findEntry_append_of_none {l : List (entityId × entityEntry)} {i : entityId}
    (h : findEntry l i = none) (l2 : List (entityId × entityEntry)) :
    findEntry (l ++ l2) i = findEntry l2 i := by
  induction l with
  | nil => rfl
  | cons p rest ih =>
    by_cases hp : p.1 = i
    · rw [findEntry, if_pos hp] at h
      exact absurd h (by simp)
    · rw [findEntry, if_neg hp] at h
      simpa [findEntry, hp] using ih h

lemma findEntry_map_keyed (f : entityEntry → entityEntry)
    (l : List (entityId × entityEntry)) (i : entityId) :
    findEntry (l.map fun p => (p.1, f p.2)) i = (findEntry l i).map f := by
  induction l with
  | nil => rfl
  | cons p rest ih =>
    by_cases hp : p.1 = i
    · simp [findEntry, hp]
    · simpa [findEntry, hp] using ih

lemma mem_setEntry {l : List (entityId × entityEntry)} {i : entityId}
    {e : entityEntry} {q : entityId × entityEntry} (h : q ∈ setEntry l i e) :
    q ∈ l ∨ q = (i, e) := by
  obtain ⟨p, hp, he⟩ := List.mem_map.mp h
  by_cases hc : p.1 = i
  · right
    rw [← he, if_pos hc]
  · left
    rwa [← he, if_neg hc]

lemma findEntry_setEntry (l : List (entityId × entityEntry)) (i : entityId)
    (e : entityEntry) :
    findEntry (setEntry l i e) i = (findEntry l i).map fun _ => e := by
  induction l with
  | nil => rfl
  | cons p rest ih =>
    by_cases hp : p.1 = i
    · simp [setEntry, findEntry, hp]
    · simpa [setEntry, findEntry, hp] using ih

lemma lookupNat_filter_ne {α : Type} (l : List (Nat × α)) (w v : Nat) (d : α)
    (h : v ≠ w) :
    lookupNat (l.filter fun p => !(decide (p.1 = w))) v d = lookupNat l v d := by
  induction l with
  | nil => rfl
  | cons p rest ih =>
    by_cases hp : p.1 = w
    · rw [List.filter_cons, if_neg (by simp [hp])]
      rw [lookupNat, if_neg (by rw [hp]; exact fun hc => h hc.symm)]
      exact ih
    · rw [List.filter_cons, if_pos (by simp [hp])]
      by_cases hv : p.1 = v
      · rw [lookupNat, if_pos hv, lookupNat, if_pos hv]
      · rw [lookupNat, if_neg hv, lookupNat, if_neg hv]
        exact ih

/-! ### changesSince as a filter over the sequence (C1) -/

/-- The characteristic predicate of `changesSince`'s output: `revno` beyond
the cursor, and not a removal the client never saw. -/
def keepPred (c : Int) (p : entityId × entityEntry) : Bool :=
  !(p.2.removed && decide (c < p.2.creationRevno)) && decide (c < p.2.revno)

lemma dropWhile_eq_filter_of_sorted (c : Int) :
    ∀ l : List (entityId × entityEntry), l.Pairwise revLT →
      (l.dropWhile fun p => decide (p.2.revno ≤ c)) =
        l.filter fun p => decide (c < p.2.revno) := by
  intro l
  induction l with
  | nil => intro _; rfl
  | cons p rest ih =>
    intro h
    rw [List.pairwise_cons] at h
    by_cases hp : p.2.revno ≤ c
    · rw [List.dropWhile_cons, if_pos (by simpa using hp),
        List.filter_cons, if_neg (by simpa using hp)]
      exact ih h.2
    · rw [List.dropWhile_cons, if_neg (by simpa using hp),
        List.filter_cons, if_pos (by simp; omega)]
      have hall : ∀ q ∈ rest, (fun p => decide (c < p.2.revno)) q = true := by
        intro q hq
        have := h.1 q hq
        unfold revLT at this
        simp
        omega
      rw [List.filter_eq_self.mpr hall]

/-! ### latestRevno bounds and monotonicity (C2) -/

lemma bound_append_tail {l : List (entityId × entityEntry)} {r : Int}
    (hb : ∀ p ∈ l, p.2.revno ≤ r) (i : entityId) (e : entityEntry)
    (he : e.revno = r + 1) :
    ∀ p ∈ l ++ [(i, e)], p.2.revno ≤ r + 1 := by
  intro p hp
  rcases List.mem_append.mp hp with hp | hp
  · have := hb p hp
    omega
  · rw [List.mem_singleton] at hp
    subst hp
    simp [he]

lemma reachable_bound {a : allInfo} (h : reachable a) :
    0 ≤ a.latestRevno ∧ ∀ p ∈ a.entries, p.2.revno ≤ a.latestRevno := by
  induction h with
  | empty =>
    refine ⟨le_refl 0, ?_⟩
    intro p hp
    simp [newAllInfo] at hp
  | @add a i info _ _ ih =>
    obtain ⟨h0, hb⟩ := ih
    refine ⟨by simp [allInfo.add]; omega, ?_⟩
    simp only [allInfo.add]
    exact bound_append_tail hb i _ rfl
  | @update a i info _ ih =>
    obtain ⟨h0, hb⟩ := ih
    cases hc : a.lookup i with
    | none =>
      simp only [allInfo.update, hc]
      refine ⟨by simp [allInfo.add]; omega, ?_⟩
      simp only [allInfo.add]
      exact bound_append_tail hb i _ rfl
    | some e =>
      simp only [allInfo.update, hc]
      refine ⟨by omega, ?_⟩
      exact bound_append_tail (fun p hp => hb p (mem_removeKey hp)) i _ rfl
  | @mark a i _ ih =>
    obtain ⟨h0, hb⟩ := ih
    cases hc : a.lookup i with
    | none =>
      rw [show a.markRemoved i = a from by simp [allInfo.markRemoved, hc]]
      exact ⟨h0, hb⟩
    | some e =>
      by_cases hr : e.removed
      · rw [show a.markRemoved i = a from by simp [allInfo.markRemoved, hc, hr]]
        exact ⟨h0, hb⟩
      · by_cases hz : e.refCount = 0
        · simp only [allInfo.markRemoved, hc, if_neg hr, if_pos hz]
          refine ⟨by omega, ?_⟩
          intro p hp
          have := hb p (mem_removeKey hp)
          omega
        · simp only [allInfo.markRemoved, hc, if_neg hr, if_neg hz]
          refine ⟨by omega, ?_⟩
          exact bound_append_tail (fun p hp => hb p (mem_removeKey hp)) i _ rfl
  | @del a i _ ih =>
    obtain ⟨h0, hb⟩ := ih
    exact ⟨h0, fun p hp => hb p (mem_removeKey hp)⟩
  | @dec a i _ ih =>
    obtain ⟨h0, hb⟩ := ih
    cases hc : a.lookup i with
    | none =>
      rw [show a.decRef i = a from by simp [allInfo.decRef, hc]]
      exact ⟨h0, hb⟩
    | some e =>
      by_cases hz : (e.refCount - 1 = 0 && e.removed) = true
      · simp only [allInfo.decRef, hc, if_pos hz]
        exact ⟨h0, fun p hp => hb p (mem_removeKey hp)⟩
      · simp only [allInfo.decRef, hc, if_neg hz]
        refine ⟨h0, ?_⟩
        intro p hp
        rcases mem_setEntry hp with hp | hp
        · exact hb p hp
        · subst hp
          have hmem : (i, e) ∈ a.entries := findEntry_mem hc
          have := hb (i, e) hmem
          simpa using this

lemma latestRevno_mono (a : allInfo) (i : entityId) (info : EntityInfo) :
    a.latestRevno ≤ (a.add i info).latestRevno ∧
    a.latestRevno ≤ (a.update i info).latestRevno ∧
    a.latestRevno ≤ (a.markRemoved i).latestRevno ∧
    a.latestRevno ≤ (a.delete i).latestRevno ∧
    a.latestRevno ≤ (a.decRef i).latestRevno := by
  refine ⟨by simp [allInfo.add], ?_, ?_, by simp [allInfo.delete], ?_⟩
  · cases hc : a.lookup i with
    | none => simp [allInfo.update, hc, allInfo.add]
    | some e => simp [allInfo.update, hc]
  · cases hc : a.lookup i with
    | none => simp [allInfo.markRemoved, hc]
    | some e =>
      by_cases hr : e.removed
      · simp [allInfo.markRemoved, hc, hr]
      · by_cases hz : e.refCount = 0
        · simp [allInfo.markRemoved, hc, hr, hz]
        · simp [allInfo.markRemoved, hc, hr, hz]
  · cases hc : a.lookup i with
    | none => simp [allInfo.decRef, hc]
    | some e =>
      by_cases hz : (e.refCount - 1 = 0 && e.removed) = true
      · simp [allInfo.decRef, hc, hz]
      · simp [allInfo.decRef, hc, hz]

/-! ### respond pops the top of the per-client stack (C3) -/

lemma stacksFlat_cons (p : Nat × List Nat) (ws : List (Nat × List Nat)) :
    stacksFlat (p :: ws) = p.2 ++ stacksFlat ws := by
  simp [stacksFlat]

lemma mem_stacksFlat {ws : List (Nat × List Nat)} {w : Nat} {s : List Nat}
    (h : (w, s) ∈ ws) {x : Nat} (hx : x ∈ s) : x ∈ stacksFlat ws := by
  unfold stacksFlat
  rw [List.mem_flatten]
  exact ⟨s, List.mem_map.mpr ⟨(w, s), h, rfl⟩, hx⟩

lemma respondGo_replies_mem (ws : List (Nat × List Nat)) :
    ∀ (all : allInfo) (revnos : List (Nat × Int)),
      ∀ r ∈ (respondGo all revnos ws).replies, r.reqId ∈ stacksFlat ws := by
  induction ws with
  | nil =>
    intro all revnos r hr
    simp [respondGo] at hr
  | cons p ws ih =>
    intro all revnos r hr
    obtain ⟨w, stack⟩ := p
    rw [stacksFlat_cons]
    by_cases hc : (allInfo.changesSince all (lookupNat revnos w 0)).isEmpty
    · simp only [respondGo, hc, if_true] at hr
      exact List.mem_append_right _ (ih all revnos r hr)
    · simp only [respondGo, hc] at hr
      rw [if_neg (by simp [hc])] at hr
      cases stack with
      | nil => exact List.mem_append_right _ (ih all revnos r hr)
      | cons top rest =>
        simp only [List.mem_cons] at hr
        rcases hr with hr | hr
        · subst hr
          simp
        · exact List.mem_append_right _ (ih _ _ r hr)

/-- The delta set available to client `w` at the moment the `respond()`
pass reaches its entry of the waiting table: the table is processed in list
order, and for every earlier client the pass applies exactly the updates
`respondGo` does (a delivery advances that client's cursor and reconciles
refcounts via `seen`), so this is `changesSince` of `w`'s cursor evaluated
in the snapshot `respond` actually sees for `w`. -/
def threadChanges (all : allInfo) (revnos : List (Nat × Int)) (w : Nat) :
    List (Nat × List Nat) → List Delta
  | [] => allInfo.changesSince all (lookupNat revnos w 0)
  | (w', stack') :: ws =>
    if w' = w then allInfo.changesSince all (lookupNat revnos w 0)
    else if (allInfo.changesSince all (lookupNat revnos w' 0)).isEmpty then
      threadChanges all revnos w ws
    else
      match stack' with
      | [] => threadChanges all revnos w ws
      | _ :: _ => threadChanges (all.seen (lookupNat revnos w' 0))
          (setNat revnos w' all.latestRevno) w ws

lemma respond_core_delivery (ws : List (Nat × List Nat)) :
    ∀ (all : allInfo) (revnos : List (Nat × Int)) (w top : Nat) (rest : List Nat),
      (stacksFlat ws).Nodup → (ws.map Prod.fst).Nodup → (w, top :: rest) ∈ ws →
      ((threadChanges all revnos w ws = [] →
          (w, top :: rest) ∈ (respondGo all revnos ws).waiting ∧
          ∀ r ∈ (respondGo all revnos ws).replies, r.reqId ≠ top ∧ r.reqId ∉ rest) ∧
        (threadChanges all revnos w ws ≠ [] →
          Reply.mk top true (threadChanges all revnos w ws) ∈ (respondGo all revnos ws).replies ∧
          (rest = [] ∨ (w, rest) ∈ (respondGo all revnos ws).waiting) ∧
          ∀ r ∈ (respondGo all revnos ws).replies, r.reqId ∉ rest)) := by
  induction ws with
  | nil =>
    intro all revnos w top rest _ _ hmem
    simp at hmem
  | cons p ws ih =>
    intro all revnos w top rest hnd hkeys hmem
    obtain ⟨w', stack'⟩ := p
    rw [stacksFlat_cons, List.nodup_append] at hnd
    obtain ⟨hnd1, hnd2, hdisj⟩ := hnd
    rw [List.map_cons, List.nodup_cons] at hkeys
    obtain ⟨hk1, hk2⟩ := hkeys
    rcases List.mem_cons.mp hmem with heq | hmemtl
    · -- head of the waiting table is our client
      have hw : w' = w := (congrArg Prod.fst heq).symm
      have hs : stack' = top :: rest := (congrArg Prod.snd heq).symm
      subst hw
      subst hs
      have hts : threadChanges all revnos w' ((w', top :: rest) :: ws) =
          allInfo.changesSince all (lookupNat revnos w' 0) := by
        simp [threadChanges]
      rw [hts]
      by_cases hc : (allInfo.changesSince all (lookupNat revnos w' 0)).isEmpty
      · -- empty delta set available: the whole stack is left pending
        constructor
        · intro _
          simp only [respondGo, hc, if_true]
          refine ⟨List.mem_cons_self _ _, ?_⟩
          intro r hr
          have hin := respondGo_replies_mem ws all revnos r hr
          exact ⟨fun hrt => hdisj (List.mem_cons_self top rest) (hrt ▸ hin),
            fun hrt => hdisj (List.mem_cons_of_mem top hrt) hin⟩
        · intro hne
          exact absurd (List.isEmpty_eq_true.mp hc) hne
      · -- non-empty delta set available: the newest request is answered
        constructor
        · intro he
          exact absurd (by simp [he]) hc
        · intro _
          simp only [respondGo, hc]
          rw [if_neg (by simp [hc])]
          refine ⟨List.mem_cons_self _ _, ?_, ?_⟩
          · by_cases hre : rest.isEmpty
            · exact Or.inl (List.isEmpty_eq_true.mp hre)
            · right
              rw [if_neg (by simp [hre])]
              exact List.mem_cons_self _ _
          · intro r hr
            rcases List.mem_cons.mp hr with hr | hr
            · subst hr
              intro hrt
              exact (List.nodup_cons.mp hnd1).1 hrt
            · intro hrt
              exact hdisj (List.mem_cons_of_mem top hrt)
                (respondGo_replies_mem ws _ _ r hr)
    · -- our client sits further down; the head client is a different one
      have hwne : w' ≠ w := by
        intro hww
        subst hww
        exact hk1 (List.mem_map.mpr ⟨(w', top :: rest), hmemtl, rfl⟩)
      have htop : top ∈ stacksFlat ws := mem_stacksFlat hmemtl (List.mem_cons_self _ _)
      have hrest : ∀ x ∈ rest, x ∈ stacksFlat ws :=
        fun x hx => mem_stacksFlat hmemtl (List.mem_cons_of_mem top hx)
      by_cases hc : (allInfo.changesSince all (lookupNat revnos w' 0)).isEmpty
      · have hts : threadChanges all revnos w ((w', stack') :: ws) =
            threadChanges all revnos w ws := by
          simp [threadChanges, hwne, hc]
        rw [hts]
        simp only [respondGo, hc, if_true]
        obtain ⟨ihE, ihNE⟩ := ih all revnos w top rest hnd2 hk2 hmemtl
        constructor
        · intro he
          obtain ⟨hmw, hrep⟩ := ihE he
          exact ⟨List.mem_cons_of_mem _ hmw, hrep⟩
        · intro hne
          obtain ⟨hmr, hwt, hrr⟩ := ihNE hne
          exact ⟨hmr, hwt.imp id (List.mem_cons_of_mem _), hrr⟩
      · cases stack' with
        | nil =>
          have hts : threadChanges all revnos w ((w', []) :: ws) =
              threadChanges all revnos w ws := by
            simp [threadChanges, hwne, hc]
          rw [hts]
          simp only [respondGo, hc]
          rw [if_neg (by simp [hc])]
          exact ih all revnos w top rest hnd2 hk2 hmemtl
        | cons t r2 =>
          have hts : threadChanges all revnos w ((w', t :: r2) :: ws) =
              threadChanges (all.seen (lookupNat revnos w' 0))
                (setNat revnos w' all.latestRevno) w ws := by
            simp [threadChanges, hwne, hc]
          rw [hts]
          simp only [respondGo, hc]
          rw [if_neg (by simp [hc])]
          dsimp only
          have htn : t ∉ stacksFlat ws :=
            fun hin => hdisj (List.mem_cons_self t r2) hin
          obtain ⟨ihE, ihNE⟩ := ih (all.seen (lookupNat revnos w' 0))
            (setNat revnos w' all.latestRevno) w top rest hnd2 hk2 hmemtl
          constructor
          · intro he
            obtain ⟨hmw, hrep⟩ := ihE he
            constructor
            · split
              · exact hmw
              · exact List.mem_cons_of_mem _ hmw
            · intro r hr
              rcases List.mem_cons.mp hr with hr | hr
              · subst hr
                refine ⟨?_, ?_⟩
                · intro hee
                  apply htn
                  have ht : t = top := hee
                  rw [ht]
                  exact htop
                · intro hee
                  exact htn (hrest _ hee)
              · exact hrep r hr
          · intro hne
            obtain ⟨hmr, hwt, hrr⟩ := ihNE hne
            refine ⟨List.mem_cons_of_mem _ hmr, ?_, ?_⟩
            · refine hwt.imp id ?_
              intro hmw
              split
              · exact hmw
              · exact List.mem_cons_of_mem _ hmw
            · intro r hr
              rcases List.mem_cons.mp hr with hr | hr
              · subst hr
                intro hee
                exact htn (hrest _ hee)
              · exact hrr r hr

/-! ### Event-loop error propagation (C5) -/

lemma processEvents_append_ok {b : Backing} :
    ∀ {pre : List entityId} {a a2 : allInfo},
      processEvents b a pre = .ok a2 →
      ∀ l, processEvents b a (pre ++ l) = processEvents b a2 l := by
  intro pre
  induction pre with
  | nil =>
    intro a a2 h l
    obtain rfl : a = a2 := by simpa [processEvents] using h
    rfl
  | cons i pre ih =>
    intro a a2 h l
    rw [List.cons_append]
    simp only [processEvents] at h ⊢
    cases hc : changed b a i with
    | error e =>
      rw [hc] at h
      simp at h
    | ok a3 =>
      rw [hc] at h
      exact ih h l

/-! ### Decidability of the sortedness invariant -/

instance (p q : entityId × entityEntry) : Decidable (revLT p q) :=
  inferInstanceAs (Decidable (p.2.revno < q.2.revno))

/-! ### Concrete states used by the witnesses (drawn from the test suite) -/

def mId0 : entityId := ⟨"machine", "0"⟩

def mId1 : entityId := ⟨"machine", "1"⟩

def mInfo0 : EntityInfo := .MachineInfo "0" ""

def mInfo1 : EntityInfo := .MachineInfo "1" ""

/-- The snapshot of `TestChangesSince` after an `incRef` and a
`markRemoved`: machine 1 live at revno 2, machine 0 a tombstone at revno 3
still referenced once. -/
def c1state : allInfo :=
  (((newAllInfo.add mId0 mInfo0).add mId1 mInfo1).incRef mId0).markRemoved mId0

/-- The mid-run state of `TestRespondMultiple`: one entity in the snapshot,
client 0 already up to date (cursor 1) with request 3 pending, client 1
behind (cursor 0) with requests 2 (newest) and 1 pending. -/
def c3state : allWatcherState :=
  ⟨newAllInfo.add mId0 mInfo0, [(0, 1), (1, 0)], [(0, [3]), (1, [2, 1])]⟩

/-- The state of `TestHandleStopDecRefIfAlreadySeenAndNotRemoved`: one
referenced live entity, the stopping client's cursor at `latestRevno`. -/
def c4state : allWatcherState :=
  ⟨(newAllInfo.add mId0 mInfo0).incRef mId0, [(0, 1)], []⟩

/-- A backing whose fetch always fails, as configured through
`setFetchError` in `TestChangedFetchErrorReturn`. -/
def c5backing : Backing := ⟨fun _ => .fatal "some error"⟩

/-- The snapshot of the "decref of removed entity" scenario: a tombstone
with one outstanding reference. -/
def c6state : allInfo :=
  ((newAllInfo.add mId0 mInfo0).incRef mId0).markRemoved mId0

/-- The waiting table of `TestHandle` just before the first watcher is
stopped: client 0 holds requests 1 (newest) and 0, client 1 holds request 2. -/
def c8state : allWatcherState :=
  ⟨newAllInfo, [], [(0, [1, 0]), (1, [2])]⟩

/-- The snapshot of the "mark removed on already marked entry" scenario
right before the second `markRemoved`. -/
def c10state : allInfo :=
  ((((newAllInfo.add mId0 mInfo0).add mId1 mInfo1).incRef mId0).markRemoved
      mId0).update mId1 (EntityInfo.MachineInfo "1" "i-1")

/-! ### The claims -/

/-- C1: on every snapshot satisfying the ordering invariant and for every
cursor `c`, `changesSince c` returns exactly the entries whose `revno`
exceeds `c` — except those marked removed with `creationRevno > c`, which
are omitted — as deltas in sequence order, and that order is strictly
increasing in `revno`. -/
theorem C1_changesSince_exact (a : allInfo) (c : Int) (h : a.wellFormed) :
    a.changesSince c =
      (a.entries.filter (keepPred c)).map (fun p => Delta.mk p.2.removed p.2.info) ∧
    (a.entries.filter (keepPred c)).Pairwise revLT := by
  refine ⟨?_, List.Pairwise.sublist (List.filter_sublist _) h.1⟩
  unfold allInfo.changesSince
  rw [dropWhile_eq_filter_of_sorted c a.entries h.1, List.filter_filter]
  rfl

/-- Witness for C1 at the `TestChangesSince` snapshot with cursor 0. -/
theorem C1_changesSince_exact_witness :
    c1state.changesSince 0 =
      (c1state.entries.filter (keepPred 0)).map (fun p => Delta.mk p.2.removed p.2.info) ∧
    (c1state.entries.filter (keepPred 0)).Pairwise revLT :=
  C1_changesSince_exact c1state 0 ⟨by decide, by decide⟩

/-- C2 counterexample: after `add` then `delete` — both legal snapshot
operations, exercised verbatim by the "delete entry" case of
`allInfoChangeMethodTests` — the sequence is empty yet `latestRevno` is 1,
refuting "latestRevno equals the revno of the tail entry, or 0 if the
sequence is empty". -/
theorem C2_counterexample :
    reachable ((newAllInfo.add mId0 mInfo0).delete mId0) ∧
    ¬ (((newAllInfo.add mId0 mInfo0).delete mId0).entries = [] →
        ((newAllInfo.add mId0 mInfo0).delete mId0).latestRevno = 0) :=
  ⟨reachable.del (reachable.add reachable.empty rfl), by decide⟩

/-- C2 (amended): in every reachable snapshot `latestRevno` is non-negative
and bounds the `revno` of every entry (in particular the tail's), and no
operation — add, update, markRemoved, delete or decRef — ever decreases it;
after a deletion it may exceed the tail's `revno` (or be non-zero on an
empty sequence). -/
theorem C2_latestRevno_monotone (a : allInfo) (h : reachable a)
    (i : entityId) (info : EntityInfo) :
    (0 ≤ a.latestRevno ∧ ∀ p ∈ a.entries, p.2.revno ≤ a.latestRevno) ∧
    (a.latestRevno ≤ (a.add i info).latestRevno ∧
      a.latestRevno ≤ (a.update i info).latestRevno ∧
      a.latestRevno ≤ (a.markRemoved i).latestRevno ∧
      a.latestRevno ≤ (a.delete i).latestRevno ∧
      a.latestRevno ≤ (a.decRef i).latestRevno) :=
  ⟨reachable_bound h, latestRevno_mono a i info⟩

/-- Witness for the amended C2 at a one-entry reachable snapshot. -/
theorem C2_latestRevno_monotone_witness :
    (0 ≤ (newAllInfo.add mId0 mInfo0).latestRevno ∧
      ∀ p ∈ (newAllInfo.add mId0 mInfo0).entries,
        p.2.revno ≤ (newAllInfo.add mId0 mInfo0).latestRevno) ∧
    ((newAllInfo.add mId0 mInfo0).latestRevno ≤
        ((newAllInfo.add mId0 mInfo0).add mId1 mInfo1).latestRevno ∧
      (newAllInfo.add mId0 mInfo0).latestRevno ≤
        ((newAllInfo.add mId0 mInfo0).update mId1 mInfo1).latestRevno ∧
      (newAllInfo.add mId0 mInfo0).latestRevno ≤
        ((newAllInfo.add mId0 mInfo0).markRemoved mId1).latestRevno ∧
      (newAllInfo.add mId0 mInfo0).latestRevno ≤
        ((newAllInfo.add mId0 mInfo0).delete mId1).latestRevno ∧
      (newAllInfo.add mId0 mInfo0).latestRevno ≤
        ((newAllInfo.add mId0 mInfo0).decRef mId1).latestRevno) :=
  C2_latestRevno_monotone (newAllInfo.add mId0 mInfo0)
    (reachable.add reachable.empty rfl) mId1 mInfo1

/-- C3: in every multiplexer state — client keys and pending-request
identities distinct — for a client whose pending stack is `top :: rest`
(`top` most recently enqueued), a `respond()` pass is decided by the delta
set available to that client when the pass reaches it (`threadChanges`):
if it is empty, the whole stack is left pending and no reply touches any of
its requests; if it is non-empty, exactly that delta set is delivered
(`ok = true`) to `top`, the most recently enqueued request, while the
earlier requests `rest` are left pending and unanswered. -/
theorem C3_respond_delivers_newest (s : allWatcherState) (w top : Nat)
    (rest : List Nat) (hnd : (stacksFlat s.waiting).Nodup)
    (hkeys : (s.waiting.map Prod.fst).Nodup)
    (hmem : (w, top :: rest) ∈ s.waiting) :
    (threadChanges s.all s.revnos w s.waiting = [] →
      (w, top :: rest) ∈ (s.respond).1.waiting ∧
      ∀ r ∈ (s.respond).2, r.reqId ≠ top ∧ r.reqId ∉ rest) ∧
    (threadChanges s.all s.revnos w s.waiting ≠ [] →
      Reply.mk top true (threadChanges s.all s.revnos w s.waiting) ∈ (s.respond).2 ∧
      (rest = [] ∨ (w, rest) ∈ (s.respond).1.waiting) ∧
      ∀ r ∈ (s.respond).2, r.reqId ∉ rest) :=
  respond_core_delivery s.waiting s.all s.revnos w top rest hnd hkeys hmem

/-- Witness for C3 at the `TestRespondMultiple` state: client 1 has pending
requests 2 (newest) and 1 and a non-empty available delta set, so request 2
is delivered that delta set and request 1 stays pending unanswered. -/
theorem C3_respond_delivers_newest_witness :
    Reply.mk 2 true (threadChanges c3state.all c3state.revnos 1 c3state.waiting) ∈
      (c3state.respond).2 ∧
    ([1] = ([] : List Nat) ∨ (1, [1]) ∈ (c3state.respond).1.waiting) ∧
    ∀ r ∈ (c3state.respond).2, r.reqId ∉ [1] :=
  (C3_respond_delivers_newest c3state 1 2 [1] (by decide) (by decide)
    (by decide)).2 (by decide)

/-- C4: when a client is stopped, every snapshot entry the client had seen
(`creationRevno ≤` its cursor) that is not marked removed has its
`refCount` decremented, and every other entry — unseen, or marked removed —
is untouched; `latestRevno` is unchanged. -/
theorem C4_stop_refcount (s : allWatcherState) (w : Nat) (i : entityId)
    (e : entityEntry) (h : s.all.lookup i = some e) :
    (s.handle w none).1.all.lookup i =
      some (if e.creationRevno ≤ lookupNat s.revnos w 0 ∧ e.removed = false
            then ⟨e.creationRevno, e.revno, e.removed, e.refCount - 1, e.info⟩
            else e) ∧
    (s.handle w none).1.all.latestRevno = s.all.latestRevno := by
  refine ⟨?_, rfl⟩
  show findEntry
      (s.all.entries.map fun p => (p.1, leaveEntry (lookupNat s.revnos w 0) p.2)) i = _
  rw [findEntry_map_keyed]
  rw [show findEntry s.all.entries i = some e from h]
  show some (leaveEntry (lookupNat s.revnos w 0) e) = _
  unfold leaveEntry
  by_cases h1 : e.creationRevno ≤ lookupNat s.revnos w 0 <;>
    by_cases h2 : e.removed <;> simp [h1, h2]

/-- Witness for C4 at the `TestHandleStopDecRefIfAlreadySeenAndNotRemoved`
state: the client has seen the live entry, so its refCount drops. -/
theorem C4_stop_refcount_witness :
    (c4state.handle 0 none).1.all.lookup mId0 =
      some (if (1 : Int) ≤ lookupNat c4state.revnos 0 0 ∧ false = false
            then ⟨1, 1, false, 1 - 1, mInfo0⟩
            else ⟨1, 1, false, 1, mInfo0⟩) ∧
    (c4state.handle 0 none).1.all.latestRevno = c4state.all.latestRevno :=
  C4_stop_refcount c4state 0 mId0 ⟨1, 1, false, 1, mInfo0⟩ (by decide)

/-- C5: when the backing fetch yields a fatal (non-not-found) error on a
change notification, the event loop terminates with exactly that error no
matter how many notifications follow, and the dead multiplexer returns the
latched error from every subsequent `Next()` (with zero deltas) and
`Stop()`. -/
theorem C5_fatal_error_latched (b : Backing) (a a2 : allInfo)
    (pre post : List entityId) (i : entityId) (e : String)
    (h1 : processEvents b a pre = .ok a2)
    (h2 : b.fetchResult i = .fatal e) :
    processEvents b a (pre ++ i :: post) = .error e ∧
    (MuxDead.mk e).Next = ([], e) ∧
    (MuxDead.mk e).Stop = e := by
  refine ⟨?_, rfl, rfl⟩
  rw [processEvents_append_ok h1]
  simp [processEvents, changed, h2]

/-- Witness for C5: the `TestChangedFetchErrorReturn` backing ("some
error"), one change notification. -/
theorem C5_fatal_error_latched_witness :
    processEvents c5backing newAllInfo ([] ++ mId0 :: []) = .error "some error" ∧
    (MuxDead.mk "some error").Next = ([], "some error") ∧
    (MuxDead.mk "some error").Stop = "some error" :=
  C5_fatal_error_latched c5backing newAllInfo newAllInfo [] [] mId0 "some error" rfl rfl

/-- C6: `decRef` decrements the entry's `refCount`; if the count reaches 0
and the entry is marked removed the entry is deleted, otherwise it stays
with the decremented count; `latestRevno` is unchanged in every case (for
any key whatsoever). -/
theorem C6_decRef_spec (a : allInfo) (i : entityId) (e : entityEntry)
    (h : a.lookup i = some e) :
    (∀ j, (a.decRef j).latestRevno = a.latestRevno) ∧
    (e.refCount - 1 = 0 ∧ e.removed = true → (a.decRef i).lookup i = none) ∧
    (¬(e.refCount - 1 = 0 ∧ e.removed = true) →
      (a.decRef i).lookup i =
        some ⟨e.creationRevno, e.revno, e.removed, e.refCount - 1, e.info⟩) := by
  refine ⟨?_, ?_, ?_⟩
  · intro j
    cases hc : a.lookup j with
    | none => simp [allInfo.decRef, hc]
    | some e2 =>
      by_cases hz : (e2.refCount - 1 = 0 && e2.removed) = true
      · simp [allInfo.decRef, hc, hz]
      · simp [allInfo.decRef, hc, hz]
  · intro hz
    show findEntry (a.decRef i).entries i = none
    simp only [allInfo.decRef, h]
    rw [if_pos (by simp [hz.1, hz.2])]
    exact findEntry_removeKey_self a.entries i
  · intro hn
    have hb : ((e.refCount - 1 = 0) && e.removed) = false := by
      by_cases h1 : e.refCount - 1 = 0
      · by_cases h2 : e.removed
        · exact absurd ⟨h1, h2⟩ hn
        · simp [h1, h2]
      · simp [h1]
    show findEntry (a.decRef i).entries i = _
    simp only [allInfo.decRef, h]
    rw [if_neg (by simp [hb])]
    show findEntry (setEntry a.entries i _) i = _
    rw [findEntry_setEntry]
    rw [show findEntry a.entries i = some e from h]
    rfl

/-- Witness for C6 at the "decref of removed entity" snapshot: the last
reference of a tombstone is dropped and the entry disappears while
`latestRevno` stays 2. -/
theorem C6_decRef_spec_witness :
    (∀ j, (c6state.decRef j).latestRevno = c6state.latestRevno) ∧
    ((1 : Int) - 1 = 0 ∧ true = true → (c6state.decRef mId0).lookup mId0 = none) ∧
    (¬((1 : Int) - 1 = 0 ∧ true = true) →
      (c6state.decRef mId0).lookup mId0 = some ⟨1, 2, true, 1 - 1, mInfo0⟩) :=
  C6_decRef_spec c6state mId0 ⟨1, 2, true, 1, mInfo0⟩ (by decide)

/-- C7: `update` of an absent key is exactly `add`: it appends, at the tail,
an entry with `creationRevno = revno = latestRevno + 1`, `refCount = 0` and
`removed = false`, and bumps `latestRevno`. -/
theorem C7_update_absent_is_add (a : allInfo) (i : entityId) (info : EntityInfo)
    (h : a.lookup i = none) :
    a.update i info = a.add i info ∧
    (a.update i info).latestRevno = a.latestRevno + 1 ∧
    (a.update i info).entries =
      a.entries ++ [(i, ⟨a.latestRevno + 1, a.latestRevno + 1, false, 0, info⟩)] ∧
    (a.update i info).lookup i =
      some ⟨a.latestRevno + 1, a.latestRevno + 1, false, 0, info⟩ := by
  have h1 : a.update i info = a.add i info := by
    unfold allInfo.update
    rw [h]
  refine ⟨h1, by rw [h1]; rfl, by rw [h1]; rfl, ?_⟩
  rw [h1]
  show findEntry (a.entries ++ [(i, _)]) i = _
  rw [findEntry_append_of_none h]
  simp [findEntry]

/-- Witness for C7: scenario S3 — `update` of machine 1 on the empty
snapshot. -/
theorem C7_update_absent_is_add_witness :
    newAllInfo.update mId1 mInfo1 = newAllInfo.add mId1 mInfo1 ∧
    (newAllInfo.update mId1 mInfo1).latestRevno = newAllInfo.latestRevno + 1 ∧
    (newAllInfo.update mId1 mInfo1).entries =
      newAllInfo.entries ++
        [(mId1, ⟨newAllInfo.latestRevno + 1, newAllInfo.latestRevno + 1, false, 0, mInfo1⟩)] ∧
    (newAllInfo.update mId1 mInfo1).lookup mId1 =
      some ⟨newAllInfo.latestRevno + 1, newAllInfo.latestRevno + 1, false, 0, mInfo1⟩ :=
  C7_update_absent_is_add newAllInfo mId1 mInfo1 rfl

/-- C8: handling a stop request (`none`, the nil reply channel) for a client
replies `false` with no deltas to every pending request of that client, in
stack order, removes the client from the waiting table, and leaves every
other client's pending requests untouched. -/
theorem C8_handle_stop (s : allWatcherState) (w : Nat) :
    (s.handle w none).2 =
      (lookupNat s.waiting w []).map (fun r => Reply.mk r false []) ∧
    (s.handle w none).1.waiting =
      s.waiting.filter (fun p => !(decide (p.1 = w))) ∧
    ∀ v, v ≠ w →
      lookupNat (s.handle w none).1.waiting v [] = lookupNat s.waiting v [] := by
  refine ⟨rfl, rfl, ?_⟩
  intro v hv
  exact lookupNat_filter_ne s.waiting w v [] hv

/-- Witness for C8 at the `TestHandle` waiting table: stopping client 0
replies false to requests 1 and 0 and leaves client 1's request 2 pending. -/
theorem C8_handle_stop_witness :
    (c8state.handle 0 none).2 =
      (lookupNat c8state.waiting 0 []).map (fun r => Reply.mk r false []) ∧
    (c8state.handle 0 none).1.waiting =
      c8state.waiting.filter (fun p => !(decide (p.1 = 0))) ∧
    ∀ v, v ≠ 0 →
      lookupNat (c8state.handle 0 none).1.waiting v [] =
        lookupNat c8state.waiting v [] :=
  C8_handle_stop c8state 0

/-- C9: once the watcher or the multiplexer is stopped, `Next()` no longer
blocks: it returns zero deltas and the "state watcher was stopped" error. -/
theorem C9_next_after_stop (w : WatcherView)
    (h : w.stopped = true ∨ w.muxStopped = true) :
    w.NextOutcome = some ([], errWatcherStopped) := by
  obtain ⟨ws, wm⟩ := w
  rcases h with h | h <;> simp_all [WatcherView.NextOutcome]

/-- Witness for C9: a watcher stopped directly. -/
theorem C9_next_after_stop_witness :
    (WatcherView.mk true false).NextOutcome = some ([], errWatcherStopped) :=
  C9_next_after_stop (WatcherView.mk true false) (Or.inl rfl)

/-- C10: `markRemoved` on a key whose entry is already marked removed
returns the snapshot unchanged — same entries in the same order with the
same stamps and refcounts, and the same `latestRevno`. -/
theorem C10_markRemoved_idempotent (a : allInfo) (i : entityId)
    (e : entityEntry) (h : a.lookup i = some e) (hr : e.removed = true) :
    a.markRemoved i = a := by
  simp [allInfo.markRemoved, h, hr]

/-- Witness for C10 at the "mark removed on already marked entry" snapshot:
the second `markRemoved` of machine 0 is a no-op. -/
theorem C10_markRemoved_idempotent_witness :
    c10state.markRemoved mId0 = c10state :=
  C10_markRemoved_idempotent c10state mId0 ⟨1, 3, true, 1, mInfo0⟩ (by decide) rfl

end JujuState
